import Mathlib

/-!
Shallow embedding of the Dolphin/Ishiiruka `PatchEngine` core
(`Source/Core/Core/PatchEngine.cpp`): the patch-section config loader,
the speedhack table loader, the stack-sanity heuristic, the patch
applier and the engine lifecycle.  External collaborators (the ini
configuration store, the PowerPC address-space probe, the ActionReplay
and Gecko code interpreters) are modelled at their interface boundary,
as the specification prescribes.
-/

namespace PatchEngine

/-- Modelled from the spec: the `PatchType` enum declared in
`Core/PatchEngine.h` (the header is not among the sources); the spec's
data model gives `kind : OneOf {Byte, Word, DWord, Invalid}`, where
`Invalid` stands for the out-of-range index `3` the C++ code produces
when the type token is not found. -/
inductive PatchType where
  | Byte
  | Word
  | DWord
  | Invalid
deriving DecidableEq

/-- Modelled from the spec: the `PatchEntry` struct of `Core/PatchEngine.h`:
`{ address : u32, type : PatchType, value : u32 }`. -/
structure PatchEntry where
  address : Nat
  type : PatchType
  value : Nat
deriving DecidableEq

/-- Modelled from the spec: the `Patch` struct of `Core/PatchEngine.h`:
`{ name : string, active : bool, user_defined : bool, entries : vector<PatchEntry> }`. -/
structure Patch where
  name : String
  active : Bool
  user_defined : Bool
  entries : List PatchEntry
deriving DecidableEq

/-- Interface model of `Common/IniFile.h` (an external collaborator, spec §1):
`lines sec` is `GetLines(sec)`, `keys sec` is `GetKeys(sec)`, and
`get sec key` is the section's `Get(key, &value, default)` with `none`
when the key is absent (the caller supplies the default). -/
structure IniFile where
  lines : String → List String
  keys : String → List String
  get : String → String → Option String

/-- `PatchTypeStrings` from PatchEngine.cpp lines 29-31. -/
def PatchTypeStrings : List String := ["byte", "word", "dword"]

/-- Modelled from the spec: `TryParse` for `u32` from `Common/StringUtil`
(not among the sources); per spec §4.1/§6 an unsigned integer parse: a
non-empty string of decimal digits whose value fits in 32 bits. -/
def tryParseU32 (s : String) : Option Nat :=
  if s.data ≠ [] ∧ s.data.all Char.isDigit then
    let n := s.data.foldl (fun acc c => acc * 10 + (c.toNat - 48)) 0
    if n < 2 ^ 32 then some n else none
  else none

/-- `pE.type = PatchType(std::find(PatchTypeStrings, PatchTypeStrings + 3, items[1]) - PatchTypeStrings)`
(PatchEngine.cpp lines 110-111): the index of the first case-sensitively
equal token, index 3 (`Invalid`) when no token matches. -/
def parsePatchType (s : String) : PatchType :=
  if s = "byte" then PatchType.Byte
  else if s = "word" then PatchType.Word
  else if s = "dword" then PatchType.DWord
  else PatchType.Invalid

/-- `line[loc] = ':'` for the first `=` found (PatchEngine.cpp lines 94-99):
the first `=` character, if any, is replaced by `:`. -/
def replaceFirstEq : List Char → List Char
  | [] => []
  | c :: cs => if c = '=' then ':' :: cs else c :: replaceFirstEq cs

def normalizeLine (line : String) : String :=
  String.mk (replaceFirstEq line.data)

/-- Modelled from the spec: `SplitString(line, ':')` from
`Common/StringUtil` (not among the sources); per spec §4.1 the line is
split into fields at the separator character. -/
def splitFieldsAux (delim : Char) : List Char → List Char → List String
  | [], cur => [String.mk cur.reverse]
  | c :: cs, cur =>
    if c = delim then String.mk cur.reverse :: splitFieldsAux delim cs []
    else splitFieldsAux delim cs (c :: cur)

def splitFields (delim : Char) (s : String) : List String :=
  splitFieldsAux delim s.data []

/-- `line.size() != 0 && line[0] == '$'`: the marker test used both on
enabled-list lines (PatchEngine.cpp line 58) and on section lines
(line 78). -/
def isMarkerLine (line : String) : Bool :=
  match line.data with
  | [] => false
  | c :: _ => c = '$'

/-- `line.substr(1, line.size() - 1)`: the text after the `$` marker. -/
def markerName (line : String) : String :=
  String.mk line.data.tail

/-- The entry-line branch of `LoadPatchSection` (PatchEngine.cpp lines 92-117):
normalize the first `=` to `:`, split on `:` (Common/StringUtil's
`SplitString`, modelled from the spec as field splitting at the
separator), require ≥ 3 fields, parse field 0 as the address and field 2
as the value, resolve field 1 against `PatchTypeStrings`; the entry
exists only if both parses succeed and the type is not `Invalid`. -/
def parseEntryLine (line : String) : Option PatchEntry :=
  match splitFields ':' (normalizeLine line) with
  | it0 :: it1 :: it2 :: _ =>
    match tryParseU32 it0, tryParseU32 it2 with
    | some a, some v =>
      if parsePatchType it1 ≠ PatchType.Invalid then
        some ⟨a, parsePatchType it1, v⟩
      else none
    | _, _ => none
  | _ => none

/-- The enabled-name scan of `LoadPatchSection` (PatchEngine.cpp lines 51-63):
every `$`-prefixed line of the `<section>_Enabled` section contributes
the name after the `$`. -/
def enabledNamesOf (enabledLines : List String) : List String :=
  enabledLines.filterMap fun line =>
    if isMarkerLine line then some (markerName line) else none

/-- One iteration of the line loop of `LoadPatchSection`
(PatchEngine.cpp lines 73-119).  State is `(currentPatch, patches)`.
An empty line is skipped.  A `$` line first commits `currentPatch`
whenever its name is nonempty (the entries are NOT checked here), then
clears the entries and sets name, active
(membership in the enabled-name set) and `user_defined`.  Any other
line is an entry line: the parsed entry, if any, is appended to
`currentPatch.entries`; otherwise the line is dropped. -/
def processLine (enabled : List String) (userDef : Bool)
    (st : Patch × List Patch) (line : String) : Patch × List Patch :=
  let cur := st.1
  let acc := st.2
  if line.data = [] then st
  else if isMarkerLine line then
    let acc2 := if cur.name.data ≠ [] then acc ++ [cur] else acc
    let nm := markerName line
    (⟨nm, enabled.contains nm, userDef, []⟩, acc2)
  else
    match parseEntryLine line with
    | some e => (⟨cur.name, cur.active, cur.user_defined, cur.entries ++ [e]⟩, acc)
    | none => st

/-- One source's pass of `LoadPatchSection` (PatchEngine.cpp lines 67-125):
fold the lines from a fresh default-constructed `currentPatch`, then
commit the in-progress patch iff it has both a name and ≥ 1 entry
(lines 121-124). -/
def loadSectionFromIni (enabled : List String) (userDef : Bool)
    (sectionLines : List String) (patches : List Patch) : List Patch :=
  let st := sectionLines.foldl (processLine enabled userDef) (⟨"", false, false, []⟩, patches)
  if st.1.name.data ≠ [] ∧ st.1.entries ≠ [] then st.2 ++ [st.1] else st.2

/-- `LoadPatchSection(section, patches, globalIni, localIni)`
(PatchEngine.cpp lines 48-126), returning the patches appended to the
given collection: the enabled-name set is read from the LOCAL ini's
`<section>_Enabled` section; then the global ini's section is scanned
with `user_defined = false` and the local ini's with
`user_defined = true`. -/
def loadPatchSectionInto (sectionName : String) (patches : List Patch)
    (globalIni localIni : IniFile) : List Patch :=
  let enabled := enabledNamesOf (localIni.lines (sectionName ++ "_Enabled"))
  let p1 := loadSectionFromIni enabled false (globalIni.lines sectionName) patches
  loadSectionFromIni enabled true (localIni.lines sectionName) p1

/-- `LoadPatchSection` as invoked from `LoadPatches` on an empty collection. -/
def loadPatchSection (sectionName : String) (globalIni localIni : IniFile) : List Patch :=
  loadPatchSectionInto sectionName [] globalIni localIni

/-- Interface model of the PowerPC address-space probe consumed by the
engine (spec §6, an external collaborator): mode flags `MSR.DR` and
`MSR.IR`, the stack-pointer register `GPR(1)`, 32-bit reads
(`HostRead_U32`), and the two address-validity predicates
(`HostIsRAMAddress`, `HostIsInstructionRAMAddress`).  `mem a` is the
raw machine word backing address `a`; `read32` truncates it to the
32-bit value `HostRead_U32` returns. -/
structure Machine where
  msrDR : Bool
  msrIR : Bool
  gpr1 : Nat
  mem : Nat → Nat
  isRam : Nat → Bool
  isInstrRam : Nat → Bool

/-- `PowerPC::HostRead_U32(a)`: a 32-bit read. -/
def Machine.read32 (m : Machine) (a : Nat) : Nat :=
  m.mem a % 2 ^ 32

/-- `u32 next_SP = PowerPC::HostRead_U32(SP)` (PatchEngine.cpp line 217). -/
def nextSPOf (m : Machine) : Nat :=
  m.read32 m.gpr1

/-- The address `next_SP + 4` as the 32-bit sum the C++ computes. -/
def retSlotOf (m : Machine) : Nat :=
  (nextSPOf m + 4) % 2 ^ 32

/-- `const u32 address = PowerPC::HostRead_U32(next_SP + 4)`
(PatchEngine.cpp line 223). -/
def retaddrOf (m : Machine) : Nat :=
  m.read32 (retSlotOf m)

/-- `IsStackSane()` (PatchEngine.cpp lines 207-225): the stack pointer
`GPR(1)` must be a valid RAM address; the word at it (`next_SP`) must be
strictly greater and `next_SP` and `next_SP + 4` must be valid RAM
addresses (`+ 4` with u32 wraparound); the word at `next_SP + 4` must be
a valid instruction-RAM address holding a non-zero word. -/
def isStackSane (m : Machine) : Bool :=
  if !(m.isRam m.gpr1) then false
  else if nextSPOf m ≤ m.gpr1 || !(m.isRam (nextSPOf m)) || !(m.isRam (retSlotOf m)) then
    false
  else m.isInstrRam (retaddrOf m) && m.read32 (retaddrOf m) ≠ 0

/-- A single memory write issued through the address-space probe:
`HostWrite_U8 / U16 / U32 (value, address)` with the value already
truncated to the declared width. -/
inductive Write where
  | w8 (value address : Nat)
  | w16 (value address : Nat)
  | w32 (value address : Nat)
deriving DecidableEq

/-- The writes one `PatchEntry` produces inside `ApplyPatches`
(PatchEngine.cpp lines 180-199): the entry's value truncated to the
declared width at the entry's address; the `default` case of the switch
issues no write. -/
def entryWrites (e : PatchEntry) : List Write :=
  match e.type with
  | PatchType.Byte => [Write.w8 (e.value % 2 ^ 8) e.address]
  | PatchType.Word => [Write.w16 (e.value % 2 ^ 16) e.address]
  | PatchType.DWord => [Write.w32 (e.value % 2 ^ 32) e.address]
  | PatchType.Invalid => []

/-- The writes a whole patch produces, in entry order. -/
def patchWrites (p : Patch) : List Write :=
  p.entries.flatMap entryWrites

/-- `IsEnabledMusicCode(patch)` (PatchEngine.cpp lines 36-41): returns
`true` when `SConfig::GetInstance().bBrawlMusicOff` is set and the patch
is named `"[P+] Music Off"`; for every other patch control flows off the
end of the value-returning function, so the call has no defined result:
modelled as `none`. -/
def isEnabledMusicCode (musicOff : Bool) (p : Patch) : Option Bool :=
  if musicOff && p.name = "[P+] Music Off" then some true else none

/-- The guard `patch.active || IsEnabledMusicCode(patch)` of
`ApplyPatches` (PatchEngine.cpp line 178): when `active` holds, `||`
short-circuits and the guard is `true`; otherwise the guard takes
whatever `IsEnabledMusicCode` yields, which is undefined (`none`) except
for the music-off override. -/
def patchGuard (musicOff : Bool) (p : Patch) : Option Bool :=
  if p.active then some true else isEnabledMusicCode musicOff p

/-- One patch's iteration of the `ApplyPatches` loop: append the
patch's writes when the guard is `true`, skip the patch when it is
`false`, and lose definedness when the guard is undefined. -/
def applyStep (musicOff : Bool) (acc : Option (List Write)) (p : Patch) : Option (List Write) :=
  match acc with
  | none => none
  | some ws =>
    match patchGuard musicOff p with
    | some true => some (ws ++ patchWrites p)
    | some false => some ws
    | none => none

/-- `ApplyPatches(patches)` (PatchEngine.cpp lines 174-202) as the list
of writes it issues, in patch order then entry order; `none` when some
patch's guard is undefined (the call then has no defined behaviour). -/
def applyPatches (musicOff : Bool) (patches : List Patch) : Option (List Write) :=
  patches.foldl (applyStep musicOff) (some [])

/-- `ApplyFramePatches()` (PatchEngine.cpp lines 227-250): if `MSR.DR`
or `MSR.IR` is clear or `IsStackSane()` fails, return `false` with no
writes; otherwise run `ApplyPatches` over the loaded collection and
return `true`.  The result pairs the boolean return with the writes the
engine itself issues (the Gecko and ActionReplay invocations are
external collaborators, out of scope per spec §1). -/
def applyFramePatches (m : Machine) (musicOff : Bool)
    (patches : List Patch) : Option (Bool × List Write) :=
  if !m.msrDR || !m.msrIR || !isStackSane m then some (false, [])
  else (applyPatches musicOff patches).map fun ws => (true, ws)

/-- The `(int)cycles` cast of `LoadSpeedhacks` (PatchEngine.cpp line 145):
a `u32` reinterpreted as a two's-complement signed 32-bit `int`. -/
def toInt32 (n : Nat) : Int :=
  if n < 2 ^ 31 then (n : Int) else (n : Int) - 2 ^ 32

/-- The per-key parse of `LoadSpeedhacks` (PatchEngine.cpp lines 132-147):
`Get(key, &value, "BOGUS")` yields the stored value or the default
`"BOGUS"`; a key whose value reads back `"BOGUS"` is skipped; then both
key and value must parse as `u32`, and the cycles are cast to `int`. -/
def parsedSpeedhack (ini : IniFile) (sec : String) (key : String) : Option (Nat × Int) :=
  match ini.get sec key with
  | none => none
  | some value =>
    if value = "BOGUS" then none
    else
      match tryParseU32 key, tryParseU32 value with
      | some address, some cycles => some (address, toInt32 cycles)
      | _, _ => none

/-- `speedHacks[address] = cycles` on a `std::map<u32, int>`: replace the
binding when the address is present, append it otherwise. -/
def shInsert : List (Nat × Int) → Nat → Int → List (Nat × Int)
  | [], a, c => [(a, c)]
  | (k, v) :: rest, a, c =>
    if k = a then (a, c) :: rest else (k, v) :: shInsert rest a c

/-- One key's iteration of the `LoadSpeedhacks` loop. -/
def speedhackStep (ini : IniFile) (sec : String)
    (tbl : List (Nat × Int)) (key : String) : List (Nat × Int) :=
  match parsedSpeedhack ini sec key with
  | some pr => shInsert tbl pr.1 pr.2
  | none => tbl

/-- `LoadSpeedhacks(section, ini)` (PatchEngine.cpp lines 128-149),
folded into an existing table (the C++ writes into the module-level map
without clearing it). -/
def loadSpeedhacksInto (sec : String) (ini : IniFile)
    (tbl : List (Nat × Int)) : List (Nat × Int) :=
  (ini.keys sec).foldl (speedhackStep ini sec) tbl

/-- `LoadSpeedhacks` starting from an empty table. -/
def loadSpeedhacks (sec : String) (ini : IniFile) : List (Nat × Int) :=
  loadSpeedhacksInto sec ini []

/-- `GetSpeedhackCycles(addr)` (PatchEngine.cpp lines 151-158): the
mapped value, or `0` when the address is absent. -/
def getSpeedhackCycles (tbl : List (Nat × Int)) (addr : Nat) : Int :=
  match tbl.lookup addr with
  | some c => c
  | none => 0

/-- The module-level mutable state owned by the engine
(PatchEngine.cpp lines 33-34): the `onFrame` patch collection and the
`speedHacks` table. -/
structure EngineState where
  onFrame : List Patch
  speedHacks : List (Nat × Int)
deriving DecidableEq

/-- The configuration input of `LoadPatches` (PatchEngine.cpp lines
160-172): the merged game ini, the shipped-default game ini and the
user-override (local) game ini, as produced by `SConfig`. -/
structure GameConfig where
  globalIni : IniFile
  localIni : IniFile
  merged : IniFile

/-- `LoadPatches()` (PatchEngine.cpp lines 160-172): `LoadPatchSection`
appends `"OnFrame"` patches to the existing collection and
`LoadSpeedhacks` folds the merged ini's `"Speedhacks"` section into the
existing table (no clearing; the ActionReplay and Gecko loads are
external collaborators, out of scope). -/
def loadPatches (cfg : GameConfig) (s : EngineState) : EngineState :=
  ⟨loadPatchSectionInto "OnFrame" s.onFrame cfg.globalIni cfg.localIni,
   loadSpeedhacksInto "Speedhacks" cfg.merged s.speedHacks⟩

/-- `Shutdown()` (PatchEngine.cpp lines 252-258): clears both containers. -/
def shutdownState (_ : EngineState) : EngineState :=
  ⟨[], []⟩

/-- `Reload()` (PatchEngine.cpp lines 260-264): `Shutdown()` then
`LoadPatches()`. -/
def reload (cfg : GameConfig) (s : EngineState) : EngineState :=
  loadPatches cfg (shutdownState s)

/-! ### Concrete fixtures -/

/-- An ini with no sections at all. -/
def iniEmpty : IniFile :=
  ⟨fun _ => [], fun _ => [], fun _ _ => none⟩

/-- A global ini whose `OnFrame` section opens patch `A`, then opens
patch `B` before `A` has received any entry. -/
def iniTwoMarkers : IniFile :=
  ⟨fun s => if s = "OnFrame" then ["$A", "$B", "1:byte:2"] else [],
   fun _ => [], fun _ _ => none⟩

/-- A machine whose stack passes every check of `IsStackSane`:
`SP = 256`, the word at `256` is `512 > 256`, the word at `516` is the
return address `768`, and the word at `768` is non-zero; addresses
below `4096` count as valid RAM and instruction RAM. -/
def mGood : Machine :=
  ⟨true, true, 256,
   fun a => if a = 256 then 512 else if a = 516 then 768 else if a = 768 then 1 else 0,
   fun a => decide (a < 4096), fun a => decide (a < 4096)⟩

/-- A machine with `MSR.DR` clear. -/
def mNoDR : Machine :=
  ⟨false, true, 0, fun _ => 0, fun _ => false, fun _ => false⟩

/-- An inactive patch carrying the music-off override name. -/
def musicPatch : Patch :=
  ⟨"[P+] Music Off", false, false, [⟨2147488308, PatchType.DWord, 0⟩]⟩

/-- An active patch with one 16-bit entry whose value overflows 16 bits. -/
def activeWordPatch : Patch :=
  ⟨"T", true, false, [⟨4096, PatchType.Word, 70000⟩]⟩

/-- An inactive patch that does not match the music-off override. -/
def plainInactivePatch : Patch :=
  ⟨"X", false, false, [⟨8, PatchType.Byte, 1⟩]⟩

/-- A merged ini whose `Speedhacks` section maps keys `"08"` and `"8"`
(both parsing to address `8`) to `100` and `200`, key `"x"` (not a
number) to `5`, and key `"7"` to `4294967295 = 2 ^ 32 - 1`. -/
def iniSpeed : IniFile :=
  ⟨fun _ => [], fun s => if s = "Speedhacks" then ["08", "x", "8", "7"] else [],
   fun s k =>
     if s = "Speedhacks" then
       if k = "08" then some "100"
       else if k = "8" then some "200"
       else if k = "x" then some "5"
       else if k = "7" then some "4294967295"
       else none
     else none⟩

/-- A global ini defining patch `A` with one entry in `OnFrame`. -/
def iniGlobalA : IniFile :=
  ⟨fun s => if s = "OnFrame" then ["$A", "2:word:3"] else [], fun _ => [], fun _ _ => none⟩

/-- A local (override) ini defining patch `B` with one entry in
`OnFrame`, whose `OnFrame_Enabled` section enables `B` only. -/
def iniLocalB : IniFile :=
  ⟨fun s =>
     if s = "OnFrame" then ["$B", "1:byte:2"]
     else if s = "OnFrame_Enabled" then ["$B"]
     else [],
   fun _ => [], fun _ _ => none⟩

/-- The patch `B` as `LoadPatchSection` commits it from `iniLocalB`. -/
def patchB : Patch :=
  ⟨"B", true, true, [⟨1, PatchType.Byte, 2⟩]⟩

/-- The patch `A` as `LoadPatchSection` commits it from `iniGlobalA`
under `iniLocalB`'s enabled list (which does not contain `A`). -/
def patchA : Patch :=
  ⟨"A", false, false, [⟨2, PatchType.Word, 3⟩]⟩

/-! ### Helper lemmas -/

theorem processLine_snd (en : List String) (ud : Bool) (st : Patch × List Patch)
    (line : String) :
    (processLine en ud st line).2 = st.2 ∨
      ((processLine en ud st line).2 = st.2 ++ [st.1] ∧ st.1.name.data ≠ []) := by
  unfold processLine
  by_cases he : line.data = []
  · simp [he]
  · by_cases hm : isMarkerLine line
    · by_cases hn : st.1.name.data ≠ []
      · right; simp [he, hm, hn]
      · left; simp [he, hm, hn]
    · cases hp : parseEntryLine line <;> simp [he, hm, hp]

theorem foldl_processLine_names (en : List String) (ud : Bool) :
    ∀ (lines : List String) (st : Patch × List Patch),
      (∀ p ∈ st.2, p.name.data ≠ []) →
      ∀ p ∈ (List.foldl (processLine en ud) st lines).2, p.name.data ≠ [] := by
  intro lines
  induction lines with
  | nil => intro st h; exact h
  | cons line rest ih =>
    intro st h
    refine ih (processLine en ud st line) ?_
    intro p hp
    rcases processLine_snd en ud st line with hs | ⟨hs, hn⟩
    · exact h p (hs ▸ hp)
    · rw [hs] at hp
      rcases List.mem_append.mp hp with hp | hp
      · exact h p hp
      · rcases List.mem_singleton.mp hp with rfl; exact hn

theorem loadSectionFromIni_names (en : List String) (ud : Bool)
    (lines : List String) (ps : List Patch)
    (h : ∀ p ∈ ps, p.name.data ≠ []) :
    ∀ p ∈ loadSectionFromIni en ud lines ps, p.name.data ≠ [] := by
  simp only [loadSectionFromIni]
  have hf := foldl_processLine_names en ud lines (⟨"", false, false, []⟩, ps) h
  split_ifs with hc
  · intro p hp
    rcases List.mem_append.mp hp with hp | hp
    · exact hf p hp
    · rcases List.mem_singleton.mp hp with rfl; exact hc.1
  · exact hf

theorem foldl_processLine_active (en : List String) (ud : Bool) :
    ∀ (lines : List String) (st : Patch × List Patch),
      (st.1.name.data ≠ [] → st.1.active = en.contains st.1.name) →
      (∀ p ∈ st.2, p.active = en.contains p.name) →
      ((List.foldl (processLine en ud) st lines).1.name.data ≠ [] →
          (List.foldl (processLine en ud) st lines).1.active =
            en.contains (List.foldl (processLine en ud) st lines).1.name) ∧
        ∀ p ∈ (List.foldl (processLine en ud) st lines).2,
          p.active = en.contains p.name := by
  intro lines
  induction lines with
  | nil => intro st h1 h2; exact ⟨h1, h2⟩
  | cons line rest ih =>
    intro st h1 h2
    refine ih (processLine en ud st line) ?_ ?_
    · unfold processLine
      by_cases he : line.data = []
      · simpa [he] using h1
      · by_cases hm : isMarkerLine line
        · intro _; simp [he, hm]
        · cases hp : parseEntryLine line
          · simpa [he, hm, hp] using h1
          · intro hn
            simp only [he, if_neg, hm, hp] at hn ⊢
            simpa using h1 (by simpa using hn)
    · intro p hp
      rcases processLine_snd en ud st line with hs | ⟨hs, hn⟩
      · exact h2 p (hs ▸ hp)
      · rw [hs] at hp
        rcases List.mem_append.mp hp with hp | hp
        · exact h2 p hp
        · rcases List.mem_singleton.mp hp with rfl; exact h1 hn

theorem loadSectionFromIni_active (en : List String) (ud : Bool)
    (lines : List String) (ps : List Patch)
    (h : ∀ p ∈ ps, p.active = en.contains p.name) :
    ∀ p ∈ loadSectionFromIni en ud lines ps, p.active = en.contains p.name := by
  simp only [loadSectionFromIni]
  have hf := foldl_processLine_active en ud lines (⟨"", false, false, []⟩, ps)
    (by intro hn; exact absurd rfl hn) h
  split_ifs with hc
  · intro p hp
    rcases List.mem_append.mp hp with hp | hp
    · exact hf.2 p hp
    · rcases List.mem_singleton.mp hp with rfl; exact hf.1 hc.1
  · exact hf.2

theorem applyStep_of_guard_none {musicOff : Bool} {p : Patch}
    (hg : patchGuard musicOff p = none) (acc : Option (List Write)) :
    applyStep musicOff acc p = none := by
  cases acc <;> simp [applyStep, hg]

theorem foldl_applyStep_none (musicOff : Bool) (ps : List Patch) :
    List.foldl (applyStep musicOff) none ps = none := by
  induction ps with
  | nil => rfl
  | cons p ps ih => simpa [applyStep] using ih

theorem patchGuard_of_active_or_music {musicOff : Bool} {p : Patch}
    (h : p.active = true ∨ (musicOff = true ∧ p.name = "[P+] Music Off")) :
    patchGuard musicOff p = some true := by
  rcases h with h | ⟨h1, h2⟩
  · simp [patchGuard, h]
  · by_cases ha : p.active <;> simp [patchGuard, isEnabledMusicCode, ha, h1, h2]

theorem patchGuard_none_of_inactive {musicOff : Bool} {p : Patch}
    (ha : p.active = false) (h : ¬(musicOff = true ∧ p.name = "[P+] Music Off")) :
    patchGuard musicOff p = none := by
  have hb : (musicOff && decide (p.name = "[P+] Music Off")) = false := by
    cases musicOff
    · rfl
    · simp_all
  simp [patchGuard, isEnabledMusicCode, ha, hb]

theorem foldl_applyStep_guarded (musicOff : Bool) :
    ∀ (ps : List Patch) (ws : List Write),
      (∀ p ∈ ps, p.active = true ∨ (musicOff = true ∧ p.name = "[P+] Music Off")) →
      List.foldl (applyStep musicOff) (some ws) ps = some (ws ++ ps.flatMap patchWrites) := by
  intro ps
  induction ps with
  | nil => intro ws _; simp
  | cons p ps ih =>
    intro ws h
    have hg := patchGuard_of_active_or_music (h p (by simp))
    have ih2 := ih (ws ++ patchWrites p) (fun q hq => h q (by simp [hq]))
    simp [applyStep, hg, ih2]

theorem applyPatches_undefined_of_mem {musicOff : Bool} {p : Patch}
    (hg : patchGuard musicOff p = none) :
    ∀ (ps : List Patch), p ∈ ps →
      ∀ acc, List.foldl (applyStep musicOff) acc ps = none := by
  intro ps
  induction ps with
  | nil => intro h; cases h
  | cons q ps ih =>
    intro hmem acc
    rcases List.mem_cons.mp hmem with hq | hq
    · subst hq
      simp [applyStep_of_guard_none hg, foldl_applyStep_none]
    · exact ih hq _

theorem tryParseU32_lt {s : String} {n : Nat} (h : tryParseU32 s = some n) :
    n < 2 ^ 32 := by
  simp only [tryParseU32] at h
  split_ifs at h with h1 h2
  exact Option.some.inj h ▸ h2

theorem lookup_shInsert (tbl : List (Nat × Int)) (a : Nat) (c : Int) (b : Nat) :
    (shInsert tbl a c).lookup b = if b = a then some c else tbl.lookup b := by
  induction tbl with
  | nil =>
    by_cases hb : b = a
    · simp [shInsert, List.lookup, hb]
    · have hba : (b == a) = false := by simp [hb]
      simp [shInsert, List.lookup, hba, hb]
  | cons kv rest ih =>
    obtain ⟨k, v⟩ := kv
    by_cases hk : k = a
    · subst hk
      by_cases hb : b = k
      · simp [shInsert, List.lookup, hb]
      · have hbk : (b == k) = false := by simp [hb]
        simp [shInsert, List.lookup, hbk, hb]
    · by_cases hb : b = k
      · subst hb
        simp [shInsert, hk, List.lookup]
      · have hbk : (b == k) = false := by simp [hb]
        simp [shInsert, hk, List.lookup, hbk, ih]

theorem foldl_speedhackStep_miss (ini : IniFile) (sec : String) :
    ∀ (keys : List String) (tbl : List (Nat × Int)) (addr : Nat),
      (∀ k ∈ keys, (parsedSpeedhack ini sec k).map Prod.fst ≠ some addr) →
      (List.foldl (speedhackStep ini sec) tbl keys).lookup addr = tbl.lookup addr := by
  intro keys
  induction keys with
  | nil => intro tbl addr _; rfl
  | cons k ks ih =>
    intro tbl addr h
    have hk := h k (by simp)
    rw [List.foldl_cons, ih _ addr (fun k2 h2 => h k2 (by simp [h2]))]
    unfold speedhackStep
    cases hp : parsedSpeedhack ini sec k with
    | none => rfl
    | some pr =>
      rw [lookup_shInsert]
      rw [hp] at hk
      simp only [Option.map_some'] at hk
      have : addr ≠ pr.1 := fun he => hk (by rw [he])
      simp [this]

theorem getSpeedhackCycles_last (ini : IniFile) (sec : String) (addr : Nat)
    (l1 l2 : List String) (k : String) (c : Int)
    (hkeys : ini.keys sec = l1 ++ k :: l2)
    (hk : parsedSpeedhack ini sec k = some (addr, c))
    (hrest : ∀ k2 ∈ l2, (parsedSpeedhack ini sec k2).map Prod.fst ≠ some addr) :
    getSpeedhackCycles (loadSpeedhacks sec ini) addr = c := by
  unfold loadSpeedhacks loadSpeedhacksInto
  rw [hkeys, List.foldl_append, List.foldl_cons]
  unfold getSpeedhackCycles
  rw [foldl_speedhackStep_miss ini sec l2 _ addr hrest]
  unfold speedhackStep
  rw [hk, lookup_shInsert]
  simp

/-! ### Claim theorems -/

/-- Helper: membership of a string in the contains-test of the
enabled-name set agrees with list membership. -/
theorem contains_eq_mem_prop (en : List String) (s : String) :
    en.contains s = true ↔ s ∈ en := by
  simp [List.contains, List.elem_iff]

/-- Helper: a resolved patch type is valid iff the token occurs in
`PatchTypeStrings`. -/
theorem parsePatchType_ne_invalid (s : String) :
    parsePatchType s ≠ PatchType.Invalid ↔ s ∈ PatchTypeStrings := by
  unfold parsePatchType PatchTypeStrings
  split_ifs <;> simp_all

/-- Claim C1 (corrected, amended): every patch committed to the patch
collection by `LoadPatchSection` has a nonempty name; the commit at a
`$` marker line checks only the name, not the entries, so a patch
committed there may have zero entries — only the end-of-source commit
additionally requires ≥ 1 entry. -/
theorem loadPatchSection_committed_names (sec : String) (g l : IniFile)
    (p : Patch) (hp : p ∈ loadPatchSection sec g l) : p.name ≠ "" := by
  unfold loadPatchSection loadPatchSectionInto at hp
  have h1 : ∀ q ∈ ([] : List Patch), q.name.data ≠ [] := by intro q hq; cases hq
  have h := loadSectionFromIni_names _ true _ _
    (loadSectionFromIni_names _ false _ _ h1) p hp
  intro heq
  rw [heq] at h
  exact h rfl

/-- Counterexample for C1 as stated: a `$A` line immediately followed by
a `$B` marker line commits patch `A` with an empty entry list, violating
`entries.size() >= 1`. -/
theorem loadPatchSection_empty_entries_counterexample :
    Patch.mk "A" false false [] ∈ loadPatchSection "OnFrame" iniTwoMarkers iniEmpty ∧
    (Patch.mk "A" false false []).entries = [] :=
  ⟨by decide, rfl⟩

/-- Witness for C1 (amended): the concrete committed patch `B` has a
nonempty name. -/
theorem loadPatchSection_committed_names_witness :
    patchB ∈ loadPatchSection "OnFrame" iniGlobalA iniLocalB ∧ patchB.name ≠ "" :=
  ⟨by decide,
    loadPatchSection_committed_names "OnFrame" iniGlobalA iniLocalB patchB (by decide)⟩

/-- Claim C5: an entry is appended for a section line exactly when the
normalized line splits into ≥ 3 fields, fields 0 and 2 parse as unsigned
integers, and field 1 equals one of the case-sensitive tokens of
`PatchTypeStrings`; any other non-marker line leaves the loader state
unchanged (silently dropped — the loader is a total function, so no
configuration load can fail on a malformed line). -/
theorem parseEntryLine_spec (line : String) :
    ((parseEntryLine line).isSome = true ↔
      ∃ it0 it1 it2 rest,
        splitFields ':' (normalizeLine line) = it0 :: it1 :: it2 :: rest ∧
        (tryParseU32 it0).isSome = true ∧ it1 ∈ PatchTypeStrings ∧
        (tryParseU32 it2).isSome = true)
  ∧ (∀ (en : List String) (ud : Bool) (cur : Patch) (acc : List Patch),
      line.data ≠ [] → isMarkerLine line = false → parseEntryLine line = none →
      processLine en ud (cur, acc) line = (cur, acc))
  ∧ (∀ (en : List String) (ud : Bool) (cur : Patch) (acc : List Patch)
      (e : PatchEntry),
      line.data ≠ [] → isMarkerLine line = false → parseEntryLine line = some e →
      processLine en ud (cur, acc) line =
        (⟨cur.name, cur.active, cur.user_defined, cur.entries ++ [e]⟩, acc)) := by
  refine ⟨?_, ?_, ?_⟩
  · match hs : splitFields ':' (normalizeLine line) with
    | [] => simp [parseEntryLine, hs]
    | [it0] => simp [parseEntryLine, hs]
    | [it0, it1] => simp [parseEntryLine, hs]
    | it0 :: it1 :: it2 :: rest =>
      cases ha : tryParseU32 it0 with
      | none => simp [parseEntryLine, hs, ha]
      | some a =>
        cases hv : tryParseU32 it2 with
        | none => simp [parseEntryLine, hs, ha, hv]
        | some v =>
          by_cases ht : parsePatchType it1 = PatchType.Invalid
          · simp [parseEntryLine, hs, ha, hv, ht, ← parsePatchType_ne_invalid]
          · simp only [parseEntryLine, hs, ha, hv, ne_eq, ht, not_false_eq_true,
              if_true, Option.isSome_some, true_iff]
            exact ⟨it0, it1, it2, rest, rfl, by simp [ha],
              (parsePatchType_ne_invalid it1).mp ht, by simp [hv]⟩
  · intro en ud cur acc he hm hp
    simp [processLine, he, hm, hp]
  · intro en ud cur acc e he hm hp
    simp [processLine, he, hm, hp]

/-- Witness for C5: the line `1:bYte:2` (wrong-case type token) is
silently dropped. -/
theorem parseEntryLine_spec_witness :
    ("1:bYte:2" : String).data ≠ [] ∧ isMarkerLine "1:bYte:2" = false ∧
    parseEntryLine "1:bYte:2" = none ∧
    processLine [] false (⟨"A", false, false, []⟩, []) "1:bYte:2" =
      (⟨"A", false, false, []⟩, []) :=
  ⟨by decide, by decide, by decide,
    (parseEntryLine_spec "1:bYte:2").2.1 [] false ⟨"A", false, false, []⟩ []
      (by decide) (by decide) (by decide)⟩

/-- Claim C6: a patch loaded from either the default (global) or the
override (local) source is active exactly when its name occurs as a
`$`-prefixed line of the override source's `<section>_Enabled` section;
which source defined the patch is irrelevant. -/
theorem loadPatchSection_active_iff (sec : String) (g l : IniFile) (p : Patch)
    (hp : p ∈ loadPatchSection sec g l) :
    (p.active = true ↔
      p.name ∈ enabledNamesOf (l.lines (sec ++ "_Enabled"))) := by
  unfold loadPatchSection loadPatchSectionInto at hp
  have h1 : ∀ q ∈ ([] : List Patch),
      q.active = (enabledNamesOf (l.lines (sec ++ "_Enabled"))).contains q.name := by
    intro q hq; cases hq
  have h := loadSectionFromIni_active _ true _ _
    (loadSectionFromIni_active _ false _ _ h1) p hp
  rw [h]
  exact contains_eq_mem_prop _ _

/-- Witness for C6: the override-defined patch `B` is active because
`$B` occurs in `OnFrame_Enabled` of the override source. -/
theorem loadPatchSection_active_iff_witness :
    patchB ∈ loadPatchSection "OnFrame" iniGlobalA iniLocalB ∧
    (patchB.active = true ↔
      patchB.name ∈ enabledNamesOf (iniLocalB.lines ("OnFrame" ++ "_Enabled"))) :=
  ⟨by decide,
    loadPatchSection_active_iff "OnFrame" iniGlobalA iniLocalB patchB (by decide)⟩

/-- Claim C2: whenever `ApplyFramePatches` is called with `MSR.DR`
disabled, or `MSR.IR` disabled, or `IsStackSane` returning false, it
returns `false` and issues zero memory writes, leaving the emulated
memory state unchanged. -/
theorem applyFramePatches_precondition_fail (m : Machine) (musicOff : Bool)
    (patches : List Patch)
    (h : m.msrDR = false ∨ m.msrIR = false ∨ isStackSane m = false) :
    applyFramePatches m musicOff patches = some (false, []) := by
  unfold applyFramePatches
  rcases h with h | h | h <;> simp [h]

/-- Witness for C2: a machine with `MSR.DR` clear makes
`ApplyFramePatches` return `false` with no writes. -/
theorem applyFramePatches_precondition_fail_witness :
    mNoDR.msrDR = false ∧
    applyFramePatches mNoDR false [activeWordPatch] = some (false, []) :=
  ⟨rfl, applyFramePatches_precondition_fail mNoDR false [activeWordPatch] (Or.inl rfl)⟩

/-- Claim C3 (amended): when `MSR.DR` and `MSR.IR` are enabled and
`IsStackSane` returns true, and every patch of the collection is either
active or matches the built-in music-off override (`bBrawlMusicOff` set
and name `"[P+] Music Off"` — otherwise the guard of an inactive patch
is undefined), `ApplyFramePatches` returns `true` and issues exactly the
writes implied by those patches' entries, in patch-collection order and
entry order, each of the entry's declared width with the value truncated
to that width, at the entry's address. -/
theorem applyFramePatches_guarded_writes (m : Machine) (musicOff : Bool)
    (patches : List Patch)
    (hDR : m.msrDR = true) (hIR : m.msrIR = true) (hS : isStackSane m = true)
    (hG : ∀ p ∈ patches, p.active = true ∨ (musicOff = true ∧ p.name = "[P+] Music Off")) :
    applyFramePatches m musicOff patches = some (true, patches.flatMap patchWrites) := by
  unfold applyFramePatches
  have happ : applyPatches musicOff patches = some (patches.flatMap patchWrites) := by
    simpa [applyPatches] using foldl_applyStep_guarded musicOff patches [] hG
  simp [hDR, hIR, hS, happ]

/-- Counterexample for C3 as stated: with the music-off flag set, a
collection whose only patch is inactive (named `"[P+] Music Off"`)
still gets its entry written, so the issued writes are not those of the
active patches (there are none). -/
theorem applyFramePatches_active_only_counterexample :
    musicPatch.active = false ∧
    applyFramePatches mGood true [musicPatch] =
      some (true, [Write.w32 0 2147488308]) := by
  constructor
  · rfl
  · decide

/-- Witness for C3 (amended): on the sane machine `mGood` with one
active one-entry word patch, `ApplyFramePatches` issues exactly that
16-bit write with the value truncated modulo `2 ^ 16`. -/
theorem applyFramePatches_guarded_writes_witness :
    mGood.msrDR = true ∧ mGood.msrIR = true ∧ isStackSane mGood = true ∧
    activeWordPatch.active = true ∧
    applyFramePatches mGood false [activeWordPatch] =
      some (true, [Write.w16 4464 4096]) := by
  refine ⟨rfl, rfl, by decide, rfl, ?_⟩
  have h := applyFramePatches_guarded_writes mGood false [activeWordPatch] rfl rfl
    (by decide) (by intro p hp; rcases List.mem_singleton.mp hp with rfl; exact Or.inl rfl)
  exact h.trans (by decide)

/-- Claim C4: `IsStackSane` returns false when `SP` is not valid
data RAM; given that, it returns false when the word read at `SP`
(`next_SP`) is `≤ SP` or `next_SP` or `next_SP + 4` (as a 32-bit sum) is
not valid data RAM; and when all those checks pass it returns true iff
the word read at `next_SP + 4` (`retaddr`) is a valid instruction-RAM
address whose stored 32-bit word is non-zero. -/
theorem isStackSane_spec (m : Machine) :
    (m.isRam m.gpr1 = false → isStackSane m = false)
  ∧ (m.isRam m.gpr1 = true →
      (nextSPOf m ≤ m.gpr1 ∨ m.isRam (nextSPOf m) = false ∨
        m.isRam (retSlotOf m) = false) →
      isStackSane m = false)
  ∧ (m.isRam m.gpr1 = true → m.gpr1 < nextSPOf m →
      m.isRam (nextSPOf m) = true → m.isRam (retSlotOf m) = true →
      (isStackSane m = true ↔
        m.isInstrRam (retaddrOf m) = true ∧ m.read32 (retaddrOf m) ≠ 0)) := by
  refine ⟨fun h => by simp [isStackSane, h], fun h1 h2 => ?_, fun h1 h2 h3 h4 => ?_⟩
  · rcases h2 with h | h | h <;> simp [isStackSane, h1, h]
  · simp [isStackSane, h1, h3, h4, Nat.not_le.mpr h2]

/-- Witness for C4: the fixture machine `mGood` passes every check, so
`IsStackSane` returns true. -/
theorem isStackSane_spec_witness : isStackSane mGood = true :=
  ((isStackSane_spec mGood).2.2 (by decide) (by decide) (by decide) (by decide)).mpr
    (by decide)

/-- Claim C8: running `Reload` (Shutdown then Load) from any state —
in particular a Loaded one — produces the same patch collection and the
same speedhack table as the first `Load` of the same configuration from
the initial (Idle) state. -/
theorem reload_reproduces_first_load (cfg : GameConfig) (s : EngineState) :
    (reload cfg s).onFrame = (loadPatches cfg ⟨[], []⟩).onFrame ∧
    (reload cfg s).speedHacks = (loadPatches cfg ⟨[], []⟩).speedHacks :=
  ⟨rfl, rfl⟩

/-- Claim C9: `IsEnabledMusicCode` returns a value only for patches
named `"[P+] Music Off"` while `bBrawlMusicOff` is set, where it returns
true; for every other patch control flows off the end of the
value-returning function, so its result — and hence the `ApplyPatches`
guard for an inactive patch — is undefined (modelled as `none`). -/
theorem isEnabledMusicCode_spec (musicOff : Bool) (p : Patch) :
    (isEnabledMusicCode musicOff p = some true ↔
      musicOff = true ∧ p.name = "[P+] Music Off")
  ∧ (¬(musicOff = true ∧ p.name = "[P+] Music Off") →
      isEnabledMusicCode musicOff p = none)
  ∧ (∀ patches, p ∈ patches → p.active = false →
      ¬(musicOff = true ∧ p.name = "[P+] Music Off") →
      applyPatches musicOff patches = none) := by
  refine ⟨?_, ?_, ?_⟩
  · by_cases hn : p.name = "[P+] Music Off" <;>
      cases musicOff <;> simp [isEnabledMusicCode, hn]
  · intro h
    by_cases hn : p.name = "[P+] Music Off" <;>
      cases musicOff <;> simp_all [isEnabledMusicCode]
  · intro patches hmem ha h
    exact applyPatches_undefined_of_mem (patchGuard_none_of_inactive ha h) patches hmem _

/-- Witness for C9: a collection holding one inactive, non-music patch
makes `ApplyPatches` undefined. -/
theorem isEnabledMusicCode_spec_witness :
    plainInactivePatch ∈ [plainInactivePatch] ∧
    plainInactivePatch.active = false ∧
    applyPatches false [plainInactivePatch] = none :=
  ⟨by decide, rfl,
    (isEnabledMusicCode_spec false plainInactivePatch).2.2 [plainInactivePatch]
      (by decide) rfl (by decide)⟩

/-- Claim C7: `GetSpeedhackCycles` returns 0 for every address no
scanned key successfully parses to; when a key parsed to an address is
followed (in scan order) only by keys not parsing to that address, the
table holds that key's cycle value — so of two keys parsing to the same
address the later-scanned one wins; and a key whose key or value fails
integer parsing leaves the table unchanged. -/
theorem speedhacks_spec (ini : IniFile) (sec : String) (addr : Nat) :
    ((∀ k ∈ ini.keys sec, (parsedSpeedhack ini sec k).map Prod.fst ≠ some addr) →
      getSpeedhackCycles (loadSpeedhacks sec ini) addr = 0)
  ∧ (∀ (l1 l2 : List String) (k : String) (c : Int),
      ini.keys sec = l1 ++ k :: l2 →
      parsedSpeedhack ini sec k = some (addr, c) →
      (∀ k2 ∈ l2, (parsedSpeedhack ini sec k2).map Prod.fst ≠ some addr) →
      getSpeedhackCycles (loadSpeedhacks sec ini) addr = c)
  ∧ (∀ (tbl : List (Nat × Int)) (k : String),
      parsedSpeedhack ini sec k = none → speedhackStep ini sec tbl k = tbl) := by
  refine ⟨?_, ?_, ?_⟩
  · intro h
    unfold loadSpeedhacks loadSpeedhacksInto getSpeedhackCycles
    rw [foldl_speedhackStep_miss ini sec _ [] addr h]
    rfl
  · intro l1 l2 k c h1 h2 h3
    exact getSpeedhackCycles_last ini sec addr l1 l2 k c h1 h2 h3
  · intro tbl k h
    unfold speedhackStep
    rw [h]

/-- Witness for C7: with keys `"08"` and `"8"` both parsing to address
8, the later-scanned key's value 200 is returned. -/
theorem speedhacks_spec_witness :
    iniSpeed.keys "Speedhacks" = ["08", "x"] ++ "8" :: ["7"] ∧
    parsedSpeedhack iniSpeed "Speedhacks" "8" = some (8, 200) ∧
    getSpeedhackCycles (loadSpeedhacks "Speedhacks" iniSpeed) 8 = 200 :=
  ⟨by decide, by decide,
    (speedhacks_spec iniSpeed "Speedhacks" 8).2.1 ["08", "x"] ["7"] "8" 200
      (by decide) (by decide) (by decide)⟩

/-- Claim C10: a configured cycle value `v` with `2^31 ≤ v < 2^32`
parses as an unsigned 32-bit integer, is stored cast to a signed `int`,
and `GetSpeedhackCycles` for that address returns the negative number
`v - 2^32`. -/
theorem speedhacks_int_cast_wraps (ini : IniFile) (sec : String)
    (l1 l2 : List String) (k vs : String) (addr v : Nat)
    (hkeys : ini.keys sec = l1 ++ k :: l2)
    (hget : ini.get sec k = some vs) (hbog : vs ≠ "BOGUS")
    (hk : tryParseU32 k = some addr) (hv : tryParseU32 vs = some v)
    (hlo : 2 ^ 31 ≤ v)
    (hrest : ∀ k2 ∈ l2, (parsedSpeedhack ini sec k2).map Prod.fst ≠ some addr) :
    getSpeedhackCycles (loadSpeedhacks sec ini) addr = (v : Int) - 2 ^ 32 ∧
    getSpeedhackCycles (loadSpeedhacks sec ini) addr < 0 := by
  have hps : parsedSpeedhack ini sec k = some (addr, toInt32 v) := by
    unfold parsedSpeedhack
    rw [hget]
    simp [hbog, hk, hv]
  have hlast := getSpeedhackCycles_last ini sec addr l1 l2 k (toInt32 v) hkeys hps hrest
  have hvlt : v < 2 ^ 32 := tryParseU32_lt hv
  have ht : toInt32 v = (v : Int) - 2 ^ 32 := by
    unfold toInt32
    rw [if_neg (by omega)]
  refine ⟨by rw [hlast, ht], ?_⟩
  rw [hlast, ht]
  have hcast : (v : Int) < 2 ^ 32 := by exact_mod_cast hvlt
  omega

/-- Witness for C10: the configured value `4294967295 = 2^32 - 1` at
address 7 reads back as `-1`. -/
theorem speedhacks_int_cast_wraps_witness :
    iniSpeed.keys "Speedhacks" = ["08", "x", "8"] ++ "7" :: [] ∧
    tryParseU32 "7" = some 7 ∧ tryParseU32 "4294967295" = some 4294967295 ∧
    getSpeedhackCycles (loadSpeedhacks "Speedhacks" iniSpeed) 7 = -1 := by
  refine ⟨by decide, by decide, by decide, ?_⟩
  have h := (speedhacks_int_cast_wraps iniSpeed "Speedhacks" ["08", "x", "8"] []
    "7" "4294967295" 7 4294967295 (by decide) (by decide) (by decide) (by decide)
    (by decide) (by norm_num) (by simp)).1
  rw [h]
  norm_num

end PatchEngine
